import Mathlib

/-!
Verification of the Viral Nexus image-relevance selector
(`src/utils/imageSelector.js`) against its natural-language specification.

The JavaScript module is shallowly embedded below: token sets become
`Finset String`, JS numbers become `ℚ` (every number the module manipulates
is an exact decimal or a ratio of small integers, so exact rational
arithmetic is the standard model of the float computation; the spec itself
treats sub-epsilon differences as float jitter), nullable or absent fields
become `Option`, and the module-level `Map` cache becomes an explicit
association list threaded through `selectPreviewImage`.

Rational arithmetic is expressed through `mkRat`-based wrappers (`qAdd`,
`qSub`, `qMul`, ...) that the kernel can evaluate; each is proved equal to
the corresponding field operation on `ℚ`, so theorems can be read and
proved with ordinary `+`, `*`, `-`, `<`, `≤`, `|·|`.

Host platform APIs used by the module (`URL`, `String.prototype.localeCompare`,
`JSON.stringify`) are modelled to match their behaviour on the ASCII inputs
the module and its test-suite exercise; each model carries a doc comment.
-/

namespace ImageSelector

/-! ### Kernel-evaluable rational arithmetic -/

/-- Addition on `ℚ` written so that the kernel can evaluate it. -/
def qAdd (a b : ℚ) : ℚ := mkRat (a.num * b.den + b.num * a.den) (a.den * b.den)

/-- Subtraction on `ℚ` written so that the kernel can evaluate it. -/
def qSub (a b : ℚ) : ℚ := mkRat (a.num * b.den - b.num * a.den) (a.den * b.den)

/-- Multiplication on `ℚ` written so that the kernel can evaluate it. -/
def qMul (a b : ℚ) : ℚ := mkRat (a.num * b.num) (a.den * b.den)

/-- The strict order on `ℚ` as a kernel-evaluable Boolean test. -/
def qLtB (a b : ℚ) : Bool := decide (a.num * (b.den : Int) < b.num * (a.den : Int))

/-- The order on `ℚ` as a kernel-evaluable Boolean test. -/
def qLeB (a b : ℚ) : Bool := decide (a.num * (b.den : Int) ≤ b.num * (a.den : Int))

/-- Absolute value on `ℚ` (JS `Math.abs`) written so that the kernel can
evaluate it. -/
def qAbs (a : ℚ) : ℚ := if qLtB a 0 then mkRat (-a.num) a.den else a

/-! ### Characters and strings

JS regex classes and string primitives, restricted to the ASCII data this
repository processes. -/

/-- Characters matched by the JS regex class `\w` (ASCII word characters). -/
def isWordChar (c : Char) : Bool :=
  c.isAlpha || c.isDigit || c = '_'

/-- Characters matched by the JS regex class `\s`, restricted to the ASCII
whitespace present in the repository's data. -/
def isSpaceChar (c : Char) : Bool :=
  c = ' ' || c = '\t' || c = '\n' || c = '\r'

/-- One character of the `replace(/[^\w\s-]/g, ' ')` step of `tokenize`:
every character that is not a word character, whitespace, or a hyphen is
replaced by a space. -/
def normalizeChar (c : Char) : Char :=
  if isWordChar c || isSpaceChar c || c = '-' then c else ' '

/-- Split a character list at every separator character. Separators are
consumed; empty pieces between consecutive separators are kept, mirroring
single-character JS `split`. (`tokenize` filters by length afterwards, so
this agrees with splitting on separator runs such as `/\s+/`.) -/
def splitOnPred (p : Char → Bool) (cs : List Char) : List (List Char) :=
  cs.foldr
    (fun c acc =>
      if p c then [] :: acc
      else
        match acc with
        | [] => [[c]]
        | t :: ts => (c :: t) :: ts)
    [[]]

/-- JS `String.prototype.trim` on a character list. -/
def trimChars (cs : List Char) : List Char :=
  ((cs.dropWhile isSpaceChar).reverse.dropWhile isSpaceChar).reverse

/-- Strict lexicographic comparison of character lists by code point. -/
def charListLt : List Char → List Char → Bool
  | [], [] => false
  | [], _ :: _ => true
  | _ :: _, [] => false
  | a :: as, b :: bs =>
    if a.toNat < b.toNat then true
    else if b.toNat < a.toNat then false
    else charListLt as bs

/-- Models JS `a.localeCompare(b)`: negative, zero, or positive according to
the relative order of the strings. Modelled as code-point lexicographic
comparison, which agrees with locale collation on the lowercase-ASCII URLs
this module compares. -/
def localeCompare (a b : String) : Int :=
  if charListLt a.data b.data then -1
  else if charListLt b.data a.data then 1
  else 0

/-! ### Tokenizer and similarity engine -/

/-- The stop-word list `STOPWORDS` from `imageSelector.js` (lines 9-12).
Note that `"over"` is not in this list (the variant implementation shipped
alongside the module has a larger list that does contain it). -/
def STOPWORDS : List String :=
  ["a", "an", "and", "are", "as", "at", "be", "by", "for", "from", "has", "he",
   "in", "is", "it", "its", "of", "on", "that", "the", "to", "was", "will", "with"]

/-- `tokenize` from `imageSelector.js` (lines 33-44): lowercase, replace
punctuation other than hyphens by spaces, split on whitespace, trim each
piece, keep pieces of length > 2 that are not stop-words, and collect them
into a set. An empty string (falsy in JS) yields the empty set; a `null` or
non-string argument is represented by callers passing `""`. -/
def tokenize (text : String) : Finset String :=
  if text = "" then ∅
  else
    ((((splitOnPred isSpaceChar
            ((text.data.map Char.toLower).map normalizeChar)).map
          trimChars).map
        (fun cs => String.mk cs)).filter
      (fun tok => decide (2 < tok.length) && !(STOPWORDS.contains tok))).toFinset

/-- `jaccardSimilarity` from `imageSelector.js` (lines 52-59): 0 when both
sets are empty, otherwise intersection size over union size, with the final
ternary guarding against an empty union. -/
def jaccardSimilarity (setA setB : Finset String) : ℚ :=
  if setA.card = 0 ∧ setB.card = 0 then 0
  else if 0 < (setA ∪ setB).card then
    mkRat ((setA ∩ setB).card : Int) ((setA ∪ setB).card)
  else 0

/-! ### Data model

JS objects become structures of `Option` fields; a `none` models a missing,
`null`, or `undefined` field. A JS string field used in a truthiness test
is falsy exactly when it is absent or empty. -/

/-- Truthiness of an optional JS string field. -/
def strTruthy : Option String → Option String
  | some s => if s = "" then none else some s
  | none => none

/-- An entry of an `images` array before validation: may lack a `url` and may
carry alt text, a caption, and pixel dimensions. A `null`/`undefined` array
entry is modelled as `none` at the use site (`Option RawImage`). -/
structure RawImage where
  url : Option String := none
  alt : Option String := none
  caption : Option String := none
  width : Option Nat := none
  height : Option Nat := none
deriving DecidableEq, Repr

/-- The `meta` object of a link record (`ogImage`, `twitterImage`). -/
structure MetaTags where
  ogImage : Option String := none
  twitterImage : Option String := none
deriving DecidableEq, Repr

/-- The optional `pageMeta` argument; only its `images` array is read by
`imageSelector.js`. -/
structure PageMeta where
  images : Option (List (Option RawImage)) := none
deriving DecidableEq, Repr

/-- The `keywords` field of a link record: absent/falsy, a bare string, or an
array of strings. -/
inductive KeywordsField where
  | missing : KeywordsField
  | single (s : String) : KeywordsField
  | many (l : List String) : KeywordsField
deriving DecidableEq, Repr

/-- The content record (`linkJson`) consumed by `selectPreviewImage`. -/
structure LinkJson where
  url : Option String := none
  title : Option String := none
  keywords : KeywordsField := .missing
  images : Option (List (Option RawImage)) := none
  meta : Option MetaTags := none
  thumbnail : Option String := none
  category : Option String := none
deriving DecidableEq, Repr

/-- `keywords || []` followed by `Array.isArray(keywords) ? keywords : [keywords]`
(lines 294-295): an absent or empty-string field gives `[]`, a non-empty bare
string gives a one-element array, an array is taken as is. -/
def keywordArrayOf : KeywordsField → List String
  | .missing => []
  | .single s => if s = "" then [] else [s]
  | .many l => l

/-- A collected image candidate (the objects pushed by
`extractImageCandidates`): a guaranteed `url` plus optional metadata and the
provenance tag stored in `source`. -/
structure Candidate where
  url : String
  alt : Option String := none
  caption : Option String := none
  width : Option Nat := none
  height : Option Nat := none
  source : String
deriving DecidableEq, Repr

/-- A candidate together with its relevance score (the spread
`{...img, score}` of line 306-309). -/
structure Scored where
  cand : Candidate
  score : ℚ
deriving DecidableEq, Repr

/-- The selection result `{imageUrl, reason, score}`. -/
structure SelResult where
  imageUrl : String
  reason : String
  score : ℚ
deriving DecidableEq, Repr

/-- The recognized selection options; `useCache` defaults to `true` in the
source (`const { useCache = true } = options`). The `debug` flag only
controls console logging and has no effect on the result, so it is not
modelled. -/
structure SelectOptions where
  useCache : Bool
deriving DecidableEq, Repr

/-! ### The selection cache

The module-level `const selectionCache = new Map()` is modelled as an
association list in insertion order, threaded explicitly: `Map.get`/`Map.has`
find the entry with the given key, and `Map.set` overwrites in place or
appends a fresh entry at the end. -/

/-- The cache state: key/result pairs in insertion order. -/
abbrev Cache := List (String × SelResult)

/-- `Map.get` (and `Map.has` via `isSome`). -/
def mapGet (cache : Cache) (k : String) : Option SelResult :=
  (cache.find? (fun kv => kv.1 = k)).map (fun kv => kv.2)

/-- `Map.set`: overwrite the existing entry for the key, else append. -/
def mapSet (cache : Cache) (k : String) (v : SelResult) : Cache :=
  if cache.any (fun kv => kv.1 = k) then
    cache.map (fun kv => if kv.1 = k then (k, v) else kv)
  else cache ++ [(k, v)]

/-- `getCacheStats` from `imageSelector.js` (lines 388-393): the number of
cached entries and the list of keys. -/
def getCacheStats (cache : Cache) : Nat × List String :=
  (cache.length, cache.map (fun kv => kv.1))

/-- `clearCache` from `imageSelector.js` (lines 380-382). -/
def clearCache : Cache := []

/-! ### Token extraction from the record and from URLs -/

/-- `extractLinkTokens` from `imageSelector.js` (lines 66-84): the union of
the title tokens and the tokens of every (truthy, string) keyword. -/
def extractLinkTokens (lj : LinkJson) : Finset String :=
  (match strTruthy lj.title with
   | some t => tokenize t
   | none => ∅)
  ∪ (keywordArrayOf lj.keywords).foldl
      (fun acc kw => if kw = "" then acc else acc ∪ tokenize kw) ∅

/-- Splits the text before the first occurrence of `"://"` from the text
after it. -/
def breakOnSchemeSep : List Char → Option (List Char × List Char)
  | [] => none
  | ':' :: '/' :: '/' :: rest => some ([], rest)
  | c :: rest =>
    match breakOnSchemeSep rest with
    | some p => some (c :: p.1, p.2)
    | none => none

/-- Models the host `new URL(...)` constructor, returning the `pathname` of
an absolute `scheme://host/path` URL and `none` where the constructor throws
(no scheme separator, empty or non-alphabetic scheme, missing host).
Faithful for the URL shapes in the repository's data and tests. -/
def parseUrl (s : String) : Option String :=
  match breakOnSchemeSep s.data with
  | some (scheme, rest) =>
    if scheme.isEmpty || !(scheme.all Char.isAlpha) then none
    else
      match rest with
      | [] => none
      | c :: _ =>
        if c = '/' then none
        else
          let path := (rest.dropWhile (fun d => !(d = '/'))).takeWhile
            (fun d => !(d = '?' || d = '#'))
          some (if path.isEmpty then "/" else String.mk path)
  | none => none

/-- `extractUrlTokens` from `imageSelector.js` (lines 91-114): tokenize every
non-empty component of the URL path, together with every hyphen/underscore
fragment of each component; if URL parsing fails, tokenize the whole string
instead. -/
def extractUrlTokens (url : String) : Finset String :=
  if url = "" then ∅
  else
    match parseUrl url with
    | some pathname =>
      let pathParts := (splitOnPred (fun c => c = '/') pathname.data).filter
        (fun p => decide (0 < p.length))
      pathParts.foldl
        (fun tokens part =>
          (splitOnPred (fun c => c = '-' || c = '_') part).foldl
            (fun acc sub => acc ∪ tokenize (String.mk sub))
            (tokens ∪ tokenize (String.mk part)))
        ∅
    | none => tokenize url

/-! ### Scoring -/

/-- The scoring weights `WEIGHTS` from `imageSelector.js` (lines 21-26):
filename 0.6, alt text 0.3, keywords 0.4, resolution 0.1. -/
structure Weights where
  filename : ℚ
  altText : ℚ
  keywords : ℚ
  resolution : ℚ

/-- The default weights of the module: 0.6 / 0.3 / 0.4 / 0.1. -/
def WEIGHTS : Weights :=
  ⟨mkRat 6 10, mkRat 3 10, mkRat 4 10, mkRat 1 10⟩

/-- `RELEVANCE_THRESHOLD = 0.1` (line 18). -/
def RELEVANCE_THRESHOLD : ℚ := mkRat 1 10

/-- `scoreImage` from `imageSelector.js` (lines 123-164): weighted sum of the
URL-token overlap, the alt/caption-token overlap, the fraction of keywords
with a token hit in the URL or alt tokens (only when keywords exist), and a
flat resolution bonus for images over 100000 pixels. -/
def scoreImage (image : Candidate) (linkTokens : Finset String)
    (keywordArray : List String) : ℚ :=
  let urlTokens := extractUrlTokens image.url
  let filenameScore := jaccardSimilarity urlTokens linkTokens
  let altTokens :=
    (match strTruthy image.alt with
     | some a => tokenize a
     | none => ∅)
    ∪ (match strTruthy image.caption with
       | some c => tokenize c
       | none => ∅)
  let altScore := jaccardSimilarity altTokens linkTokens
  let score := qAdd (qMul filenameScore WEIGHTS.filename) (qMul altScore WEIGHTS.altText)
  let keywordMatches :=
    (keywordArray.filter
      (fun kw =>
        decide ((tokenize kw ∩ urlTokens).Nonempty) ||
        decide ((tokenize kw ∩ altTokens).Nonempty))).length
  let score :=
    if 0 < keywordArray.length then
      qAdd score (qMul (mkRat (keywordMatches : Int) keywordArray.length) WEIGHTS.keywords)
    else score
  match image.width, image.height with
  | some w, some h =>
    if 0 < w ∧ 0 < h ∧ 100000 < w * h then qAdd score WEIGHTS.resolution else score
  | _, _ => score

/-! ### Candidate collection -/

/-- The per-entry validation of the image-array sources (`if (img && img.url)`):
a present entry with a truthy `url` becomes a candidate carrying the given
provenance tag, anything else is skipped. -/
def rawToCandidate (source : String) (entry : Option RawImage) : Option Candidate :=
  match entry with
  | some img =>
    match strTruthy img.url with
    | some u => some ⟨u, img.alt, img.caption, img.width, img.height, source⟩
    | none => none
  | none => none

/-- One image-array source of `extractImageCandidates` (lines 176-189 and
207-221): entries that are present and have a truthy `url` are converted to
candidates carrying the given provenance tag; the rest are skipped. -/
def candidatesFromImages (source : String) (images : Option (List (Option RawImage))) :
    List Candidate :=
  match images with
  | some imgs => imgs.filterMap (rawToCandidate source)
  | none => []

/-- The meta-tag source of `extractImageCandidates` (lines 191-205): the
truthy `ogImage`, then the truthy `twitterImage` provided its raw value
differs from the raw `ogImage` value. -/
def candidatesFromMeta (meta : Option MetaTags) : List Candidate :=
  match meta with
  | none => []
  | some m =>
    (match strTruthy m.ogImage with
     | some og => [⟨og, none, none, none, none, "ogImage"⟩]
     | none => [])
    ++ (match strTruthy m.twitterImage with
        | some tw => if m.ogImage = some tw then [] else [⟨tw, none, none, none, none, "twitterImage"⟩]
        | none => [])

/-- The legacy-thumbnail source of `extractImageCandidates` (lines 223-229). -/
def candidatesFromThumbnail (lj : LinkJson) : List Candidate :=
  match strTruthy lj.thumbnail with
  | some t => [⟨t, none, none, none, none, "thumbnail"⟩]
  | none => []

/-- `extractImageCandidates` from `imageSelector.js` (lines 172-232). The
candidate list is built by pushing, in program order: the record's own
`images` array, the `ogImage`/`twitterImage` meta tags, the `pageMeta.images`
array, and the legacy `thumbnail` field. No deduplication is performed. -/
def extractImageCandidates (lj : LinkJson) (pageMeta : Option PageMeta) :
    List Candidate :=
  candidatesFromImages "linkJson" lj.images
    ++ candidatesFromMeta lj.meta
    ++ candidatesFromImages "pageMeta" (pageMeta.bind (fun pm => pm.images))
    ++ candidatesFromThumbnail lj

/-- `getPlaceholderImage` from `imageSelector.js` (lines 239-249): a fixed
category table with the news image as the default. -/
def getPlaceholderImage (category : Option String) : String :=
  match category with
  | some "news" => "https://placehold.co/250x150/ff4500/white?text=Breaking+News"
  | some "videos" => "https://placehold.co/250x150/ff4500/white?text=Video"
  | some "products" => "https://placehold.co/250x150/ff4500/white?text=Product"
  | some "tweets" => "https://placehold.co/250x150/ff4500/white?text=Tweet"
  | some "memes" => "https://placehold.co/250x150/ff4500/white?text=Meme"
  | some "tools" => "https://placehold.co/250x150/ff4500/white?text=Tool"
  | _ => "https://placehold.co/250x150/ff4500/white?text=Breaking+News"

/-! ### Ranking -/

/-- The epsilon of the sort comparator (line 313): score differences below
0.001 count as ties. -/
def SCORE_EPSILON : ℚ := mkRat 1 1000

/-- The sort comparator of lines 312-318: scores within `SCORE_EPSILON` of
each other are tied and ordered by `localeCompare` on the URL (ascending);
otherwise by score (descending, via `b.score - a.score`). -/
def imageCmp (a b : Scored) : ℚ :=
  if qLtB (qAbs (qSub a.score b.score)) SCORE_EPSILON then
    mkRat (localeCompare a.cand.url b.cand.url) 1
  else qSub b.score a.score

/-- Insert into a sorted list, keeping the existing element first on a
non-positive comparator value (stability). -/
def insertByCmp (cmp : Scored → Scored → ℚ) (a : Scored) : List Scored → List Scored
  | [] => [a]
  | b :: bs => if qLeB (cmp a b) 0 then a :: b :: bs else b :: insertByCmp cmp a bs

/-- A stable comparator sort (JS `Array.prototype.sort`, which the ECMAScript
standard requires to be stable; for a consistent comparator any stable sort
produces the same output). -/
def sortByCmp (cmp : Scored → Scored → ℚ) (l : List Scored) : List Scored :=
  l.foldr (insertByCmp cmp) []

/-- Lines 293-318 of `selectPreviewImage`: build the token context, score
every collected candidate, and sort with the deterministic comparator. -/
def scoredSorted (lj : LinkJson) (pageMeta : Option PageMeta) : List Scored :=
  let linkTokens := extractLinkTokens lj
  let keywordArray := keywordArrayOf lj.keywords
  let candidates := extractImageCandidates lj pageMeta
  sortByCmp imageCmp
    (candidates.map (fun img => ⟨img, scoreImage img linkTokens keywordArray⟩))

/-! ### Selection -/

/-- The fallback ladder of lines 335-363: Open-Graph meta image, then
Twitter-card meta image, then the first collected candidate, then the
category placeholder — each with its own reason tag and score 0. -/
def fallbackResult (lj : LinkJson) (candidates : List Candidate) : SelResult :=
  match strTruthy (lj.meta.bind (fun m => m.ogImage)) with
  | some og => ⟨og, "fallback_og_image", 0⟩
  | none =>
    match strTruthy (lj.meta.bind (fun m => m.twitterImage)) with
    | some tw => ⟨tw, "fallback_twitter_image", 0⟩
    | none =>
      match candidates with
      | c :: _ => ⟨c.url, "fallback_first_image", 0⟩
      | [] => ⟨getPlaceholderImage lj.category, "fallback_placeholder", 0⟩

/-- Models the host `JSON.stringify` applied to a link record: a canonical
string encoding of the record's present fields. It is only used as the
fallback cache key when the record has no truthy `url`; no claim depends on
the exact encoding, only on it being a fixed function of the record. -/
def jsonStringify (lj : LinkJson) : String :=
  let encOpt : Option String → String := fun o =>
    match o with
    | none => "_"
    | some s => "s:" ++ s
  let encImg : Option RawImage → String := fun o =>
    match o with
    | none => "_"
    | some img =>
      String.intercalate ","
        [encOpt img.url, encOpt img.alt, encOpt img.caption,
         toString img.width, toString img.height]
  let encImgs : Option (List (Option RawImage)) → String := fun o =>
    match o with
    | none => "_"
    | some l => String.intercalate ";" (l.map encImg)
  let encKw : KeywordsField → String := fun k =>
    match k with
    | .missing => "_"
    | .single s => "s:" ++ s
    | .many l => String.intercalate "," l
  let encMeta : Option MetaTags → String := fun o =>
    match o with
    | none => "_"
    | some m => encOpt m.ogImage ++ "," ++ encOpt m.twitterImage
  String.intercalate "&"
    [encOpt lj.url, encOpt lj.title, encKw lj.keywords, encImgs lj.images,
     encMeta lj.meta, encOpt lj.thumbnail, encOpt lj.category]

/-- The cache key of line 285: `linkJson.url || JSON.stringify(linkJson)` —
the `url` field when truthy, else the JSON encoding of the whole record. -/
def cacheKeyOf (lj : LinkJson) : String :=
  match strTruthy lj.url with
  | some u => u
  | none => jsonStringify lj

/-- The reason/score/url of an accepted scored match (lines 330-334). -/
def scoredMatchResult (top : Scored) : SelResult :=
  ⟨top.cand.url, "scored_match (" ++ top.cand.source ++ ")", top.score⟩

/-- Lines 293-363 of `selectPreviewImage`: the result computed on a cache
miss — the top-ranked candidate when it reaches `RELEVANCE_THRESHOLD`
(`scoredCandidates.length > 0 && scoredCandidates[0].score >= RELEVANCE_THRESHOLD`),
otherwise the fallback ladder. -/
def selectCore (lj : LinkJson) (pageMeta : Option PageMeta) : SelResult :=
  let candidates := extractImageCandidates lj pageMeta
  match scoredSorted lj pageMeta with
  | top :: _ =>
    if qLeB RELEVANCE_THRESHOLD top.score then scoredMatchResult top
    else fallbackResult lj candidates
  | [] => fallbackResult lj candidates

/-- `selectPreviewImage` from `imageSelector.js` (lines 271-375), with the
module-level cache threaded explicitly: the function returns the selection
result together with the cache state after the call. A `none` first argument
models every invalid (`null`, `undefined`, or non-object) `linkJson`. -/
def selectPreviewImage (linkJson : Option LinkJson) (pageMeta : Option PageMeta)
    (options : SelectOptions) (cache : Cache) : SelResult × Cache :=
  match linkJson with
  | none =>
    (⟨getPlaceholderImage (some "news"), "invalid_input", 0⟩, cache)
  | some lj =>
    let cacheKey := cacheKeyOf lj
    match (if options.useCache then mapGet cache cacheKey else none) with
    | some cached => (cached, cache)
    | none =>
      let result := selectCore lj pageMeta
      (result, if options.useCache then mapSet cache cacheKey result else cache)

/-! ### Concrete records used in witnesses and counterexamples -/

/-- A record whose own image candidate scores 0 (no title/keyword overlap)
and whose meta tags carry an Open-Graph image: exercises the fallback
ladder. -/
def ladderRecord : LinkJson :=
  { url := some "https://e.com/article",
    images := some [some { url := some "https://x/a.jpg" }],
    meta := some { ogImage := some "https://x/og.jpg" } }

/-- A record with a single high-resolution candidate and no text signals:
its only candidate scores exactly the resolution bonus 0.1, which equals the
relevance threshold. -/
def thresholdRecord : LinkJson :=
  { url := some "https://e.com/x",
    images := some
      [some { url := some "https://x/a.jpg", width := some 400, height := some 300 }] }

/-- The malformed-candidates scenario from the specification:
`[null, undefined, {url: null}, {url: "https://x/valid.jpg"}]`. -/
def malformedRecord : LinkJson :=
  { url := some "https://e.com/a8",
    images := some
      [none, none, some { url := none }, some { url := some "https://x/valid.jpg" }] }

/-- A record contributing only an Open-Graph meta candidate. -/
def metaOnlyRecord : LinkJson :=
  { url := some "https://e.com/a9",
    meta := some { ogImage := some "https://m/og.jpg" } }

/-- Page metadata contributing one scraped image. -/
def scrapedPage : PageMeta :=
  { images := some [some { url := some "https://p/pg.jpg" }] }

/-- A record whose `images` array and legacy `thumbnail` field both name the
same URL: exercises the absence of deduplication. -/
def duplicateRecord : LinkJson :=
  { url := some "https://e.com/dup",
    images := some [some { url := some "https://x/s.jpg" }],
    thumbnail := some "https://x/s.jpg" }

/-- A plain record used to exercise the cache. -/
def cachedRecord : LinkJson :=
  { url := some "https://e.com/c1",
    title := some "Venezuela Breaking News",
    images := some [some { url := some "https://x/venezuela-news.jpg" }] }

/-- A record sharing `cachedRecord`'s URL but with a different title and
different images. -/
def cachedRecordAltered : LinkJson :=
  { url := some "https://e.com/c1",
    title := some "Completely Different Title",
    images := some [some { url := some "https://x/other.jpg" }] }

/-- Scored candidate with score 0.001 and the lexicographically largest URL
of the comparator-cycle triple. -/
def cycleHi : Scored :=
  ⟨⟨"https://x/c.jpg", none, none, none, none, "linkJson"⟩, mkRat 1 1000⟩

/-- Scored candidate with score 0 and the lexicographically smallest URL of
the comparator-cycle triple. -/
def cycleLo : Scored :=
  ⟨⟨"https://x/a.jpg", none, none, none, none, "linkJson"⟩, 0⟩

/-- Scored candidate with score 0.0005 and the middle URL of the
comparator-cycle triple. -/
def cycleMid : Scored :=
  ⟨⟨"https://x/b.jpg", none, none, none, none, "linkJson"⟩, mkRat 5 10000⟩

/-! ### Basic lemmas about the rational layer -/

theorem qAdd_eq (a b : ℚ) : qAdd a b = a + b := (Rat.add_def' a b).symm

theorem qSub_eq (a b : ℚ) : qSub a b = a - b := (Rat.sub_def' a b).symm

theorem qMul_eq (a b : ℚ) : qMul a b = a * b := by
  unfold qMul
  rw [Rat.mul_def, Rat.normalize_eq_mkRat]

theorem qLtB_iff (a b : ℚ) : qLtB a b = true ↔ a < b := by
  simp only [qLtB, decide_eq_true_eq]
  exact (Rat.lt_def).symm

theorem qLeB_iff (a b : ℚ) : qLeB a b = true ↔ a ≤ b := by
  simp only [qLeB, decide_eq_true_eq]
  exact (Rat.le_def).symm

theorem qAbs_eq (a : ℚ) : qAbs a = |a| := by
  unfold qAbs
  by_cases h : a < 0
  · rw [if_pos ((qLtB_iff a 0).mpr h), abs_of_neg h]
    rw [show mkRat (-a.num) a.den = -mkRat a.num a.den from (Rat.neg_mkRat _ _).symm,
      Rat.mkRat_self]
  · rw [if_neg (by simpa using (not_congr (qLtB_iff a 0)).mpr h),
      abs_of_nonneg (not_lt.mp h)]

/-! ### Lemmas about the cache -/

theorem not_mem_keys_of_mapGet_none {cache : Cache} {k : String}
    (h : mapGet cache k = none) : k ∉ cache.map Prod.fst := by
  simp only [mapGet, Option.map_eq_none', List.find?_eq_none, decide_eq_true_eq] at h
  intro hk
  obtain ⟨kv, hkv, hfst⟩ := List.mem_map.mp hk
  exact h kv hkv hfst

theorem mem_keys_of_mapGet_some {cache : Cache} {k : String} {v : SelResult}
    (h : mapGet cache k = some v) : k ∈ cache.map Prod.fst := by
  simp only [mapGet, Option.map_eq_some'] at h
  obtain ⟨kv, hkv, -⟩ := h
  have hmem := List.mem_of_find?_eq_some hkv
  have hp := List.find?_some hkv
  simp only [decide_eq_true_eq] at hp
  exact hp ▸ List.mem_map_of_mem Prod.fst hmem

theorem mapSet_of_mapGet_none {cache : Cache} {k : String} (v : SelResult)
    (h : mapGet cache k = none) : mapSet cache k v = cache ++ [(k, v)] := by
  have hany : cache.any (fun kv => kv.1 = k) = false := by
    simp only [mapGet, Option.map_eq_none', List.find?_eq_none] at h
    simpa [List.any_eq_false] using h
  simp [mapSet, hany]

theorem mapGet_append_self {cache : Cache} {k : String} (v : SelResult)
    (h : mapGet cache k = none) : mapGet (cache ++ [(k, v)]) k = some v := by
  simp only [mapGet, Option.map_eq_none'] at h
  simp [mapGet, List.find?_append, h]

theorem count_keys_append_self {cache : Cache} {k : String} (v : SelResult)
    (h : mapGet cache k = none) :
    ((cache ++ [(k, v)]).map Prod.fst).count k = 1 := by
  rw [List.map_append, List.count_append]
  rw [List.count_eq_zero.mpr (not_mem_keys_of_mapGet_none h)]
  simp

/-! ### Unfolding lemmas for the selector -/

theorem selectPreviewImage_hit (lj : LinkJson) (pm : Option PageMeta)
    (cache : Cache) (v : SelResult) (h : mapGet cache (cacheKeyOf lj) = some v) :
    selectPreviewImage (some lj) pm ⟨true⟩ cache = (v, cache) := by
  simp [selectPreviewImage, h]

theorem selectPreviewImage_miss (lj : LinkJson) (pm : Option PageMeta)
    (cache : Cache) (h : mapGet cache (cacheKeyOf lj) = none) :
    selectPreviewImage (some lj) pm ⟨true⟩ cache =
      (selectCore lj pm, cache ++ [(cacheKeyOf lj, selectCore lj pm)]) := by
  simp [selectPreviewImage, h, mapSet_of_mapGet_none _ h]

theorem selectPreviewImage_nocache (lj : LinkJson) (pm : Option PageMeta)
    (cache : Cache) :
    selectPreviewImage (some lj) pm ⟨false⟩ cache = (selectCore lj pm, cache) := by
  simp [selectPreviewImage]

/-! ### Lemmas about the comparator and the fallback ladder -/

theorem charListLt_asymm : ∀ (as bs : List Char),
    charListLt as bs = true → charListLt bs as = false
  | [], [] => by simp [charListLt]
  | [], _ :: _ => by simp [charListLt]
  | _ :: _, [] => by simp [charListLt]
  | a :: as, b :: bs => by
    simp only [charListLt]
    by_cases h1 : a.toNat < b.toNat
    · intro _
      rw [if_neg (by omega), if_pos h1]
    · by_cases h2 : b.toNat < a.toNat
      · rw [if_neg h1, if_pos h2]
        intro h
        cases h
      · rw [if_neg h1, if_neg h2, if_neg h2, if_neg h1]
        exact charListLt_asymm as bs

theorem localeCompare_antisymm (a b : String) :
    localeCompare b a = -(localeCompare a b) := by
  unfold localeCompare
  cases h1 : charListLt a.data b.data
  · cases h2 : charListLt b.data a.data
    · simp [h1, h2]
    · simp [h1, h2]
  · have h2 := charListLt_asymm _ _ h1
    simp [h1, h2]

theorem strTruthy_ne_empty {o : Option String} {u : String}
    (h : strTruthy o = some u) : u ≠ "" := by
  cases o with
  | none => simp [strTruthy] at h
  | some s =>
    by_cases hs : s = ""
    · simp [strTruthy, hs] at h
    · simp only [strTruthy, if_neg hs, Option.some_inj] at h
      exact h ▸ hs

theorem url_ne_empty_of_mem_fromImages {src : String}
    {imgs : Option (List (Option RawImage))} {c : Candidate}
    (h : c ∈ candidatesFromImages src imgs) : c.url ≠ "" := by
  cases imgs with
  | none => simp [candidatesFromImages] at h
  | some l =>
    simp only [candidatesFromImages, List.mem_filterMap] at h
    obtain ⟨entry, -, hf⟩ := h
    cases entry with
    | none => simp [rawToCandidate] at hf
    | some img =>
      simp only [rawToCandidate] at hf
      cases hu : strTruthy img.url with
      | none => rw [hu] at hf; simp at hf
      | some u =>
        rw [hu] at hf
        simp only [Option.some_inj] at hf
        rw [← hf]
        exact strTruthy_ne_empty hu

theorem url_ne_empty_of_mem_fromMeta {meta : Option MetaTags} {c : Candidate}
    (h : c ∈ candidatesFromMeta meta) : c.url ≠ "" := by
  cases meta with
  | none => simp [candidatesFromMeta] at h
  | some m =>
    simp only [candidatesFromMeta] at h
    rcases List.mem_append.mp h with h | h
    · cases hog : strTruthy m.ogImage with
      | none => rw [hog] at h; simp at h
      | some og =>
        rw [hog] at h
        simp only [List.mem_singleton] at h
        rw [h]
        exact strTruthy_ne_empty hog
    · cases htw : strTruthy m.twitterImage with
      | none => rw [htw] at h; simp at h
      | some tw =>
        simp only [htw] at h
        by_cases hif : m.ogImage = some tw
        · rw [if_pos hif] at h
          simp at h
        · rw [if_neg hif] at h
          simp only [List.mem_singleton] at h
          rw [h]
          exact strTruthy_ne_empty htw

theorem url_ne_empty_of_mem_fromThumbnail {lj : LinkJson} {c : Candidate}
    (h : c ∈ candidatesFromThumbnail lj) : c.url ≠ "" := by
  unfold candidatesFromThumbnail at h
  cases ht : strTruthy lj.thumbnail with
  | none => rw [ht] at h; simp at h
  | some t =>
    rw [ht] at h
    simp only [List.mem_singleton] at h
    rw [h]
    exact strTruthy_ne_empty ht

theorem fallbackResult_reason_mem (lj : LinkJson) (cs : List Candidate) :
    (fallbackResult lj cs).reason ∈
      (["fallback_og_image", "fallback_twitter_image", "fallback_first_image",
        "fallback_placeholder"] : List String) := by
  unfold fallbackResult
  cases strTruthy (lj.meta.bind fun m => m.ogImage) <;>
    cases strTruthy (lj.meta.bind fun m => m.twitterImage) <;>
      cases cs <;> simp

/-! ### Claims -/

/-- C5: `jaccardSimilarity` equals `|A ∩ B| / |A ∪ B|` whenever the union is
non-empty, returns 0 (not 1, and exactly — no NaN exists in `ℚ`) when both
sets are empty, always lies in `[0, 1]`, and in particular the overlap of
the empty set with any set (such as `∅` or a singleton) is 0. -/
theorem jaccardSimilarity_spec (A B : Finset String) :
    (A = ∅ ∧ B = ∅ → jaccardSimilarity A B = 0)
    ∧ ((A ∪ B).Nonempty →
        jaccardSimilarity A B = ((A ∩ B).card : ℚ) / ((A ∪ B).card : ℚ))
    ∧ 0 ≤ jaccardSimilarity A B ∧ jaccardSimilarity A B ≤ 1
    ∧ jaccardSimilarity ∅ B = 0 := by
  have hdiv : ∀ C D : Finset String, 0 < (C ∪ D).card →
      mkRat ((C ∩ D).card : Int) ((C ∪ D).card) =
        ((C ∩ D).card : ℚ) / ((C ∪ D).card : ℚ) := by
    intro C D _
    rw [Rat.mkRat_eq_divInt, Rat.divInt_eq_div]
    push_cast
    rfl
  refine ⟨?_, ?_, ?_, ?_, ?_⟩
  · rintro ⟨hA, hB⟩
    simp [jaccardSimilarity, hA, hB]
  · intro hne
    have hcard : 0 < (A ∪ B).card := Finset.card_pos.mpr hne
    have hnotboth : ¬(A.card = 0 ∧ B.card = 0) := by
      rintro ⟨hA, hB⟩
      rw [Finset.card_eq_zero] at hA hB
      rw [hA, hB, Finset.union_empty] at hne
      exact Finset.not_nonempty_empty hne
    rw [jaccardSimilarity, if_neg hnotboth, if_pos hcard, hdiv A B hcard]
  · unfold jaccardSimilarity
    split
    · norm_num
    split
    · next hpos =>
      rw [hdiv A B hpos]
      positivity
    · norm_num
  · unfold jaccardSimilarity
    split
    · norm_num
    split
    · next hpos =>
      rw [hdiv A B hpos]
      rw [div_le_one (by exact_mod_cast hpos)]
      exact_mod_cast Finset.card_le_card
        ((Finset.inter_subset_left).trans Finset.subset_union_left)
    · norm_num
  · unfold jaccardSimilarity
    split
    · rfl
    split
    · simp [Finset.empty_inter]
    · rfl

/-- C5 witness: the theorem applied to two concrete set pairs — the doubly
empty pair yields 0 and a half-overlapping pair yields 1/2. -/
theorem jaccardSimilarity_spec_witness :
    jaccardSimilarity ∅ ∅ = 0 ∧ jaccardSimilarity {"x"} {"x", "y"} = (1 : ℚ) / 2 := by
  constructor
  · exact (jaccardSimilarity_spec ∅ ∅).1 ⟨rfl, rfl⟩
  · rw [(jaccardSimilarity_spec {"x"} {"x", "y"}).2.1 (by decide)]
    rw [show ({"x"} ∩ {"x", "y"} : Finset String).card = 1 from by decide,
      show ({"x"} ∪ {"x", "y"} : Finset String).card = 2 from by decide]
    norm_num

/-- C6 counterexample: the claim asserts that `tokenize` excludes the
stop-word `"over"`, but `"over"` is not in this module's `STOPWORDS` list
and is therefore present in the token set of the reference sentence. -/
theorem tokenize_keeps_over :
    "over" ∈ tokenize "The quick brown fox jumps over the lazy dog" := by decide

/-- C6 (amended): the token set of the reference sentence contains `quick`,
`brown`, and `fox` and excludes the stop-word `the`; it also contains
`over`, which this implementation does not treat as a stop-word. -/
theorem tokenize_reference_sentence :
    "quick" ∈ tokenize "The quick brown fox jumps over the lazy dog"
    ∧ "brown" ∈ tokenize "The quick brown fox jumps over the lazy dog"
    ∧ "fox" ∈ tokenize "The quick brown fox jumps over the lazy dog"
    ∧ "the" ∉ tokenize "The quick brown fox jumps over the lazy dog"
    ∧ "over" ∈ tokenize "The quick brown fox jumps over the lazy dog" := by decide

/-- C7: an absent or non-record `linkJson` (modelled by `none`) always yields
the news placeholder with reason `invalid_input` and score 0, and leaves the
cache — and hence `getCacheStats` — completely unchanged, whatever the page
metadata, options, and cache state. -/
theorem selectPreviewImage_invalid_input (pm : Option PageMeta)
    (opts : SelectOptions) (cache : Cache) :
    selectPreviewImage none pm opts cache =
      (⟨getPlaceholderImage (some "news"), "invalid_input", 0⟩, cache)
    ∧ getCacheStats (selectPreviewImage none pm opts cache).2 = getCacheStats cache :=
  ⟨rfl, rfl⟩

/-- C3 counterexample: the sorts-before relation of the comparator is cyclic
on three concrete scored candidates — `cycleHi` (score 0.001, URL `.../c.jpg`)
sorts before `cycleLo` (score 0, URL `.../a.jpg`) by score, `cycleLo` sorts
before `cycleMid` (score 0.0005, URL `.../b.jpg`) by URL tie-break, and
`cycleMid` sorts before `cycleHi` by URL tie-break, while `cycleHi` does not
sort before `cycleMid`. Hence the relation is not transitive and the claimed
total order does not exist. -/
theorem imageCmp_cycle :
    imageCmp cycleHi cycleLo < 0
    ∧ imageCmp cycleLo cycleMid < 0
    ∧ imageCmp cycleMid cycleHi < 0
    ∧ ¬(imageCmp cycleHi cycleMid < 0) := by decide

/-- C3 (amended): the comparator compares any two candidates and is
antisymmetric in the sign-reversal sense (`cmp(b,a) = -cmp(a,b)`), so each
pair has a deterministic relative order; but because the epsilon tie is not
transitive the relation is not a total order, and input-order independence
of the ranked output is not guaranteed for score patterns straddling the
epsilon. -/
theorem imageCmp_antisymm (a b : Scored) : imageCmp b a = -imageCmp a b := by
  unfold imageCmp
  have habs : qAbs (qSub b.score a.score) = qAbs (qSub a.score b.score) := by
    rw [qAbs_eq, qAbs_eq, qSub_eq, qSub_eq, abs_sub_comm]
  rw [habs]
  cases h : qLtB (qAbs (qSub a.score b.score)) SCORE_EPSILON
  · simp only [h, Bool.false_eq_true, if_false]
    rw [qSub_eq, qSub_eq, neg_sub]
  · simp only [h, if_true]
    rw [Rat.mkRat_one, Rat.mkRat_one, localeCompare_antisymm, Int.cast_neg]

/-- C2 counterexample: a record whose only primary candidate
(`https://x/a.jpg`) scores below the threshold while the meta tags carry an
Open-Graph image. The claimed ladder would return the best-scored primary
candidate (`https://x/a.jpg`) at rung (i); the implementation instead
returns the Open-Graph image. -/
theorem ladder_has_no_primary_rung :
    (∀ top ∈ (scoredSorted ladderRecord none).head?, top.score < RELEVANCE_THRESHOLD)
    ∧ (extractImageCandidates ladderRecord none).map (fun c => c.url) =
        ["https://x/a.jpg", "https://x/og.jpg"]
    ∧ (selectPreviewImage (some ladderRecord) none ⟨false⟩ []).1 =
        ⟨"https://x/og.jpg", "fallback_og_image", 0⟩
    ∧ ("https://x/og.jpg" : String) ≠ "https://x/a.jpg" := by decide

/-- C2 (amended): when the top-ranked candidate scores below the threshold
(or no candidate exists), `selectPreviewImage` walks the fallback ladder
Open-Graph meta image, then Twitter-card meta image, then first collected
candidate from any source, then category-keyed placeholder — each rung with
its own distinct reason tag; there is no rung returning the best-scored
primary candidate. -/
theorem fallback_ladder (lj : LinkJson) (pm : Option PageMeta)
    (hbelow : ∀ top ∈ (scoredSorted lj pm).head?, top.score < RELEVANCE_THRESHOLD) :
    (selectPreviewImage (some lj) pm ⟨false⟩ []).1 =
      fallbackResult lj (extractImageCandidates lj pm)
    ∧ (∀ og, strTruthy (lj.meta.bind fun m => m.ogImage) = some og →
        fallbackResult lj (extractImageCandidates lj pm) =
          ⟨og, "fallback_og_image", 0⟩)
    ∧ (strTruthy (lj.meta.bind fun m => m.ogImage) = none →
        ∀ tw, strTruthy (lj.meta.bind fun m => m.twitterImage) = some tw →
        fallbackResult lj (extractImageCandidates lj pm) =
          ⟨tw, "fallback_twitter_image", 0⟩)
    ∧ (strTruthy (lj.meta.bind fun m => m.ogImage) = none →
        strTruthy (lj.meta.bind fun m => m.twitterImage) = none →
        ∀ c cs, extractImageCandidates lj pm = c :: cs →
        fallbackResult lj (extractImageCandidates lj pm) =
          ⟨c.url, "fallback_first_image", 0⟩)
    ∧ (strTruthy (lj.meta.bind fun m => m.ogImage) = none →
        strTruthy (lj.meta.bind fun m => m.twitterImage) = none →
        extractImageCandidates lj pm = [] →
        fallbackResult lj (extractImageCandidates lj pm) =
          ⟨getPlaceholderImage lj.category, "fallback_placeholder", 0⟩) := by
  refine ⟨?_, ?_, ?_, ?_, ?_⟩
  · rw [selectPreviewImage_nocache]
    show selectCore lj pm = _
    unfold selectCore
    cases hs : scoredSorted lj pm with
    | nil => rfl
    | cons top rest =>
      have hlt : top.score < RELEVANCE_THRESHOLD := hbelow top (by rw [hs]; rfl)
      have hle : qLeB RELEVANCE_THRESHOLD top.score = false := by
        rw [Bool.eq_false_iff]
        intro hc
        exact absurd ((qLeB_iff _ _).mp hc) (not_le.mpr hlt)
      simp [hle]
  · intro og hog
    unfold fallbackResult
    rw [hog]
  · intro hog tw htw
    unfold fallbackResult
    rw [hog, htw]
  · intro hog htw c cs hc
    unfold fallbackResult
    rw [hog, htw, hc]
  · intro hog htw hc
    unfold fallbackResult
    rw [hog, htw, hc]

/-- C2 witness: the amended ladder theorem applied to the concrete
`ladderRecord`, whose candidates all score below the threshold and whose
Open-Graph rung fires. -/
theorem fallback_ladder_witness :
    (selectPreviewImage (some ladderRecord) none ⟨false⟩ []).1 =
      ⟨"https://x/og.jpg", "fallback_og_image", 0⟩ := by
  have h := fallback_ladder ladderRecord none (by decide)
  rw [h.1, h.2.1 "https://x/og.jpg" (by decide)]

/-- C4: with a non-empty ranked candidate list, the top candidate is accepted
as a scored match — reason `scored_match` annotated with its provenance —
exactly when its score is at least the threshold (so a score exactly equal
to the threshold is accepted), and only a top score strictly below the
threshold falls through to the fallback ladder. -/
theorem threshold_boundary (lj : LinkJson) (pm : Option PageMeta) (top : Scored)
    (rest : List Scored) (h : scoredSorted lj pm = top :: rest) :
    (RELEVANCE_THRESHOLD ≤ top.score →
      (selectPreviewImage (some lj) pm ⟨false⟩ []).1 =
        ⟨top.cand.url, "scored_match (" ++ top.cand.source ++ ")", top.score⟩)
    ∧ (top.score < RELEVANCE_THRESHOLD →
      (selectPreviewImage (some lj) pm ⟨false⟩ []).1 =
        fallbackResult lj (extractImageCandidates lj pm)
      ∧ (selectPreviewImage (some lj) pm ⟨false⟩ []).1.reason ∈
          (["fallback_og_image", "fallback_twitter_image", "fallback_first_image",
            "fallback_placeholder"] : List String)) := by
  rw [selectPreviewImage_nocache]
  constructor
  · intro hge
    show selectCore lj pm = _
    unfold selectCore
    rw [h]
    simp only [if_pos ((qLeB_iff _ _).mpr hge)]
    rfl
  · intro hlt
    have hle : qLeB RELEVANCE_THRESHOLD top.score = false := by
      rw [Bool.eq_false_iff]
      intro hc
      exact absurd ((qLeB_iff _ _).mp hc) (not_le.mpr hlt)
    have hsel : selectCore lj pm = fallbackResult lj (extractImageCandidates lj pm) := by
      unfold selectCore
      rw [h]
      simp [hle]
    exact ⟨hsel, hsel ▸ fallbackResult_reason_mem lj (extractImageCandidates lj pm)⟩

/-- C4 witness: `thresholdRecord`'s only candidate scores exactly
`RELEVANCE_THRESHOLD` (the resolution bonus 0.1 alone) and is accepted as a
scored match with its provenance in the reason. -/
theorem threshold_boundary_witness :
    scoredSorted thresholdRecord none =
      [⟨⟨"https://x/a.jpg", none, none, some 400, some 300, "linkJson"⟩,
        RELEVANCE_THRESHOLD⟩]
    ∧ (selectPreviewImage (some thresholdRecord) none ⟨false⟩ []).1 =
      ⟨"https://x/a.jpg", "scored_match (linkJson)", RELEVANCE_THRESHOLD⟩ := by
  refine ⟨by decide, ?_⟩
  exact (threshold_boundary thresholdRecord none
    ⟨⟨"https://x/a.jpg", none, none, some 400, some 300, "linkJson"⟩,
      RELEVANCE_THRESHOLD⟩ [] (by decide)).1 (le_refl _)

/-- C8: malformed candidate entries never derail selection — URL-token
extraction falls back to tokenizing the whole string whenever URL parsing
fails, every collected candidate has a non-empty URL whatever the input
record and page metadata, and on the specification's concrete list
`[null, undefined, {url: null}, {url: "https://x/valid.jpg"}]` selection
proceeds using only the valid entry. -/
theorem malformed_candidates_skipped :
    (∀ url : String, parseUrl url = none → extractUrlTokens url = tokenize url)
    ∧ (∀ (lj : LinkJson) (pm : Option PageMeta),
        ∀ c ∈ extractImageCandidates lj pm, c.url ≠ "")
    ∧ extractImageCandidates malformedRecord none =
        [⟨"https://x/valid.jpg", none, none, none, none, "linkJson"⟩]
    ∧ (selectPreviewImage (some malformedRecord) none ⟨false⟩ []).1 =
        ⟨"https://x/valid.jpg", "fallback_first_image", 0⟩ := by
  refine ⟨?_, ?_, by decide, by decide⟩
  · intro url hp
    unfold extractUrlTokens
    by_cases hu : url = ""
    · rw [if_pos hu, hu]
      rfl
    · rw [if_neg hu, hp]
  · intro lj pm c hc
    unfold extractImageCandidates at hc
    rcases List.mem_append.mp hc with h | h
    · rcases List.mem_append.mp h with h | h
      · rcases List.mem_append.mp h with h | h
        · exact url_ne_empty_of_mem_fromImages h
        · exact url_ne_empty_of_mem_fromMeta h
      · exact url_ne_empty_of_mem_fromImages h
    · exact url_ne_empty_of_mem_fromThumbnail h

/-- C8 witness: the theorem applied at a string the URL parser rejects (it
has no scheme separator) and at the concrete malformed record. -/
theorem malformed_candidates_skipped_witness :
    extractUrlTokens "not a url at all" = tokenize "not a url at all"
    ∧ (selectPreviewImage (some malformedRecord) none ⟨false⟩ []).1.imageUrl =
        "https://x/valid.jpg" := by
  refine ⟨malformed_candidates_skipped.1 "not a url at all" (by decide), ?_⟩
  rw [malformed_candidates_skipped.2.2.2]

/-- C9 counterexample: with an empty primary list, an Open-Graph meta image,
and one page-scraped image, the implementation collects the meta image
before the page-scraped image, while the claimed precedence (primary, then
page-scraped, then Open-Graph, then Twitter, then thumbnail) would put the
page-scraped image first. -/
theorem meta_collected_before_page_images :
    (extractImageCandidates metaOnlyRecord (some scrapedPage)).map (fun c => c.url) =
      ["https://m/og.jpg", "https://p/pg.jpg"]
    ∧ (["https://m/og.jpg", "https://p/pg.jpg"] : List String) ≠
        ["https://p/pg.jpg", "https://m/og.jpg"] := by decide

/-- C9 (amended): the candidate list is assembled in the fixed precedence
order primary image-candidate list, then Open-Graph meta image, then
Twitter-card meta image only when its raw value differs from the Open-Graph
field, then the supplemental page-scraped list, then the legacy thumbnail;
duplicates by URL across sources are kept. -/
theorem candidate_collection_order (lj : LinkJson) (pm : Option PageMeta) :
    extractImageCandidates lj pm =
      candidatesFromImages "linkJson" lj.images
        ++ candidatesFromMeta lj.meta
        ++ candidatesFromImages "pageMeta" (pm.bind fun x => x.images)
        ++ candidatesFromThumbnail lj
    ∧ (∀ m : MetaTags, ∀ t : String, t ≠ "" →
        m.ogImage = some t → m.twitterImage = some t →
        candidatesFromMeta (some m) = [⟨t, none, none, none, none, "ogImage"⟩])
    ∧ ((extractImageCandidates duplicateRecord none).map (fun c => c.url)).count
        "https://x/s.jpg" = 2 := by
  refine ⟨rfl, ?_, by decide⟩
  intro m t ht hog htw
  simp [candidatesFromMeta, hog, htw, strTruthy, ht]

/-- C9 witness: the amended collection order applied to a concrete meta-tag
pair whose Twitter URL repeats the Open-Graph URL — only the Open-Graph
candidate is kept. -/
theorem candidate_collection_order_witness :
    candidatesFromMeta
        (some ⟨some "https://x/t.jpg", some "https://x/t.jpg"⟩) =
      [⟨"https://x/t.jpg", none, none, none, none, "ogImage"⟩] :=
  (candidate_collection_order { url := some "https://e.com/w9" } none).2.1
    ⟨some "https://x/t.jpg", some "https://x/t.jpg"⟩ "https://x/t.jpg"
    (by decide) rfl rfl

/-- C1: with caching enabled, calling `selectPreviewImage` twice on the same
record starting from any cache whose keys are distinct (the `Map` invariant)
returns the same result both times, the second call changes nothing (it
serves the cached result without rescoring), and after both calls the cache
statistics list exactly one entry for the record's cache key. -/
theorem cache_stability (lj : LinkJson) (pm : Option PageMeta) (cache : Cache)
    (hnd : (cache.map Prod.fst).Nodup) :
    (selectPreviewImage (some lj) pm ⟨true⟩
        ((selectPreviewImage (some lj) pm ⟨true⟩ cache).2)).1
      = (selectPreviewImage (some lj) pm ⟨true⟩ cache).1
    ∧ (selectPreviewImage (some lj) pm ⟨true⟩
        ((selectPreviewImage (some lj) pm ⟨true⟩ cache).2)).2
      = (selectPreviewImage (some lj) pm ⟨true⟩ cache).2
    ∧ ((getCacheStats (selectPreviewImage (some lj) pm ⟨true⟩
          ((selectPreviewImage (some lj) pm ⟨true⟩ cache).2)).2).2).count
        (cacheKeyOf lj) = 1 := by
  cases hget : mapGet cache (cacheKeyOf lj) with
  | some v =>
    have h1 := selectPreviewImage_hit lj pm cache v hget
    simp only [h1]
    refine ⟨trivial, trivial, ?_⟩
    simp only [getCacheStats]
    exact List.count_eq_one_of_mem hnd (mem_keys_of_mapGet_some hget)
  | none =>
    have h1 := selectPreviewImage_miss lj pm cache hget
    have h2 := selectPreviewImage_hit lj pm
      (cache ++ [(cacheKeyOf lj, selectCore lj pm)]) (selectCore lj pm)
      (mapGet_append_self _ hget)
    simp only [h1, h2]
    refine ⟨trivial, trivial, ?_⟩
    simp only [getCacheStats]
    exact count_keys_append_self _ hget

/-- C1 witness: the stability theorem applied to `cachedRecord` starting from
the empty cache. -/
theorem cache_stability_witness :
    (selectPreviewImage (some cachedRecord) none ⟨true⟩
        ((selectPreviewImage (some cachedRecord) none ⟨true⟩ []).2)).1
      = (selectPreviewImage (some cachedRecord) none ⟨true⟩ []).1
    ∧ ((getCacheStats (selectPreviewImage (some cachedRecord) none ⟨true⟩
          ((selectPreviewImage (some cachedRecord) none ⟨true⟩ []).2)).2).2).count
        (cacheKeyOf cachedRecord) = 1 := by
  have h := cache_stability cachedRecord none [] (by simp)
  exact ⟨h.1, h.2.2⟩

/-- C10: the cache key is the record's truthy `url` alone (the JSON encoding
of the whole record is used only when `url` is absent), so with caching
enabled a second call with a record sharing the first record's `url` — even
with different title, images, meta, or page metadata — returns the
previously cached result and leaves the cache unchanged. -/
theorem cache_key_is_url (lj1 lj2 : LinkJson) (pm1 pm2 : Option PageMeta)
    (cache : Cache) (u : String)
    (h1 : lj1.url = some u) (h2 : lj2.url = some u) (hu : u ≠ "") :
    cacheKeyOf lj1 = u
    ∧ (∀ lj : LinkJson, lj.url = none → cacheKeyOf lj = jsonStringify lj)
    ∧ selectPreviewImage (some lj2) pm2 ⟨true⟩
        ((selectPreviewImage (some lj1) pm1 ⟨true⟩ cache).2)
      = ((selectPreviewImage (some lj1) pm1 ⟨true⟩ cache).1,
         (selectPreviewImage (some lj1) pm1 ⟨true⟩ cache).2) := by
  have hkey : ∀ lj : LinkJson, lj.url = some u → cacheKeyOf lj = u := by
    intro lj h
    simp [cacheKeyOf, strTruthy, h, hu]
  refine ⟨hkey lj1 h1, ?_, ?_⟩
  · intro lj h
    simp [cacheKeyOf, strTruthy, h]
  · cases hget : mapGet cache u with
    | some v =>
      have ha := selectPreviewImage_hit lj1 pm1 cache v (by rw [hkey lj1 h1]; exact hget)
      have hb := selectPreviewImage_hit lj2 pm2 cache v (by rw [hkey lj2 h2]; exact hget)
      simp only [ha, hb]
    | none =>
      have ha := selectPreviewImage_miss lj1 pm1 cache (by rw [hkey lj1 h1]; exact hget)
      have hb := selectPreviewImage_hit lj2 pm2
        (cache ++ [(cacheKeyOf lj1, selectCore lj1 pm1)]) (selectCore lj1 pm1)
        (by
          rw [hkey lj2 h2, hkey lj1 h1]
          exact mapGet_append_self _ hget)
      simp only [ha, hb]

/-- C10 witness: the key theorem applied to two concrete records sharing the
URL `https://e.com/c1` but differing in title and images — the second call
returns the first call's cached result and cache. -/
theorem cache_key_is_url_witness :
    selectPreviewImage (some cachedRecordAltered) none ⟨true⟩
        ((selectPreviewImage (some cachedRecord) none ⟨true⟩ []).2)
      = ((selectPreviewImage (some cachedRecord) none ⟨true⟩ []).1,
         (selectPreviewImage (some cachedRecord) none ⟨true⟩ []).2) :=
  (cache_key_is_url cachedRecord cachedRecordAltered none none []
    "https://e.com/c1" rfl rfl (by decide)).2.2

end ImageSelector
